import Mathlib

/-!
# Shallow embedding of the indicator engine (`src/server/technical-analysis.ts`)

Prices, volumes and timestamps are modelled as rationals (exact arithmetic on
the numerals the engine actually receives); the single operation that leaves
the rationals — `Math.sqrt` in the Bollinger calculator — is modelled with
`Real.sqrt` over `ℝ`.

JavaScript partiality is made explicit with `Option`:
`Array.prototype.reduce` with no initial value throws a `TypeError` on an
empty array, and `arr[arr.length - 1]` is `undefined` on an empty array
(arithmetic on `undefined` then yields `NaN`).  Calculators that can reach one
of those states return `Option`, with `none` marking "throws, or some output
component is `undefined`/`NaN`".  Calculators whose explicit length guards
make such states unreachable are total functions.
-/

namespace Signalix

/-- One OHLCV bar (`interface Candle`).  The JS field `open` is a Lean
keyword, so it is called `openP` here; no calculator reads it. -/
structure Candle where
  timestamp : ℚ
  openP : ℚ
  high : ℚ
  low : ℚ
  close : ℚ
  volume : ℚ
deriving DecidableEq, Repr

/-- Placeholder candle used for `List.getD` at indices that are in bounds at
every call site (the JS code indexes the array directly). -/
def dummyCandle : Candle := ⟨0, 0, 0, 0, 0, 0⟩

/-- JS `arr.slice(-n)`: the trailing `n` elements.  `slice(-0)` is
`slice(0)`, i.e. the whole array. -/
def jsSliceNeg (l : List α) (n : ℕ) : List α :=
  if n = 0 then l else l.drop (l.length - n)

/-- JS `arr.slice(a, b)` for non-negative `a`, `b`: indices `a ≤ i < b`,
clamped to the array. -/
def jsSlice (l : List α) (a b : ℕ) : List α :=
  (l.take b).drop a

/-- JS `Math.max(...xs)` over a non-empty spread.  On the empty list JS
returns `-Infinity`; every call site below guards against that case, so the
junk value `0` is never observable. -/
def maxList : List ℚ → ℚ
  | [] => 0
  | x :: xs => xs.foldl max x

/-- JS `Math.min(...xs)` over a non-empty spread (junk `0` on `[]`,
unreachable at every call site). -/
def minList : List ℚ → ℚ
  | [] => 0
  | x :: xs => xs.foldl min x

/-- The adjacent pairs `(arr[i-1], arr[i])` visited by the
`for (let i = 1; i < arr.length; i++)` loops. -/
def transitions (candles : List Candle) : List (Candle × Candle) :=
  candles.zip candles.tail

/-- Adjacent differences `arr[i] - arr[i-1]`. -/
def adjDiffs : List ℚ → List ℚ
  | a :: b :: rest => (b - a) :: adjDiffs (b :: rest)
  | _ => []

/-! ## Series utilities -/

/-- Arithmetic of `calculateSMA` (the branch actually computed when the JS
`reduce` does not throw): mean of all values when fewer than `period` exist,
else mean of the trailing `period`-slice. -/
def smaCore (prices : List ℚ) (period : ℕ) : ℚ :=
  if prices.length < period then prices.sum / prices.length
  else (jsSliceNeg prices period).sum / period

/-- `calculateSMA`.  In both branches the JS `reduce` throws exactly when
`prices` is empty (in the long branch the reduced slice is empty only for
`period = 0` on an empty array), hence `none` iff `prices = []`. -/
def calculateSMA (prices : List ℚ) (period : ℕ) : Option ℚ :=
  if prices = [] then none else some (smaCore prices period)

/-- Arithmetic of `calculateEMA`: on input shorter than `period` the most
recent price (`prices[prices.length - 1]`) is returned unchanged; otherwise
an SMA seed over the trailing `period`-slice is smoothed through that same
slice with multiplier `2/(period+1)`. -/
def emaCore (prices : List ℚ) (period : ℕ) : ℚ :=
  if prices.length < period then (prices.getLast?).getD 0
  else
    let multiplier : ℚ := 2 / ((period : ℚ) + 1)
    let seed := (jsSliceNeg prices period).sum / period
    (prices.drop (prices.length - period)).foldl
      (fun ema price => (price - ema) * multiplier + ema) seed

/-- `calculateEMA`.  `none` iff `prices = []`: the short branch reads
`prices[prices.length - 1]` (`undefined` on `[]`), the long branch `reduce`s
a slice that is empty only when `period = 0` and `prices = []`. -/
def calculateEMA (prices : List ℚ) (period : ℕ) : Option ℚ :=
  if prices = [] then none else some (emaCore prices period)

/-! ## MACD -/

structure MACDOut where
  value : ℚ
  signal : ℚ
  histogram : ℚ
deriving DecidableEq, Repr

/-- Arithmetic of `calculateMACD` on the inputs where no component is
`undefined`/`NaN`: MACD line `EMA12 − EMA26`, signal = `EMA(9)` of the MACD
line recomputed over every prefix `prices.slice(0, i)` for
`26 ≤ i ≤ prices.length`, histogram = line − signal. -/
def macdCore (candles : List Candle) : MACDOut :=
  let prices := candles.map (·.close)
  let ema12 := emaCore prices 12
  let ema26 := emaCore prices 26
  let macdValue := ema12 - ema26
  let macdValues := (List.range' 26 (prices.length + 1 - 26)).map
    (fun i => emaCore (prices.take i) 12 - emaCore (prices.take i) 26)
  let signal := emaCore macdValues 9
  ⟨macdValue, signal, macdValue - signal⟩

/-- `calculateMACD`.  With fewer than 26 closes the reconstructed MACD
history is empty, so the JS signal is `calculateEMA([], 9) = undefined` and
the histogram is `NaN` (and on an empty candle list the MACD line itself is
already `NaN`): `none` iff `candles.length < 26`. -/
def calculateMACD (candles : List Candle) : Option MACDOut :=
  if candles.length < 26 then none else some (macdCore candles)

/-! ## RSI -/

/-- `calculateRSI`.  With fewer than `period + 1` candles the neutral `50`
is returned.  Otherwise the loop
`for (let i = prices.length - period; i < prices.length; i++)` sums the
positive changes as gains and the magnitudes of the non-positive changes as
losses; those changes are exactly the adjacent differences of the trailing
`period + 1` closes. -/
def calculateRSI (candles : List Candle) (period : ℕ := 14) : ℚ :=
  if candles.length < period + 1 then 50
  else
    let prices := candles.map (·.close)
    let changes := adjDiffs (prices.drop (prices.length - (period + 1)))
    let gains := (changes.map (fun c => if 0 < c then c else 0)).sum
    let losses := (changes.map (fun c => if 0 < c then 0 else -c)).sum
    let avgGain := gains / period
    let avgLoss := losses / period
    if avgLoss = 0 then 100
    else
      let rs := avgGain / avgLoss
      100 - 100 / (1 + rs)

/-! ## Volume trend indicator -/

/-- `calculateVolumeIndicator`: percentage change of the mean volume of the
last 5 candles against the mean volume of the 5 before them
(`slice(-5)` vs `slice(-10, -5)`); `0` with fewer than 10 candles. -/
def calculateVolumeIndicator (candles : List Candle) : ℚ :=
  if candles.length < 10 then 0
  else
    let recentVolumes := (jsSliceNeg candles 5).map (·.volume)
    let olderVolumes :=
      (jsSlice candles (candles.length - 10) (candles.length - 5)).map (·.volume)
    let recentAvg := recentVolumes.sum / (recentVolumes.length : ℚ)
    let olderAvg := olderVolumes.sum / (olderVolumes.length : ℚ)
    (recentAvg / olderAvg - 1) * 100

/-! ## Stochastic oscillator -/

structure StochOut where
  k : ℚ
  d : ℚ
deriving DecidableEq, Repr

/-- The raw `%K` formula `((close − low) / (high − low)) × 100`. -/
def stochKRaw (close low high : ℚ) : ℚ :=
  (close - low) / (high - low) * 100

/-- One iteration of the `kValues` loop of `calculateStochastic`: the
window `candles.slice(max(0, i − kPeriod + 1), i + 1)` contributes its `%K`
only when it holds a full `kPeriod` candles *and* its high/low range is
non-zero. -/
def stochKSlot (candles : List Candle) (kPeriod : ℕ) (i : ℕ) : Option ℚ :=
  let slice := jsSlice candles (i + 1 - kPeriod) (i + 1)
  if kPeriod ≤ slice.length then
    let close := (candles.getD i dummyCandle).close
    let high := maxList (slice.map (·.high))
    let low := minList (slice.map (·.low))
    if high ≠ low then some (stochKRaw close low high) else none
  else none

/-- The JS local `kValues` of `calculateStochastic`: the loop walks window
ends `max(0, len − kPeriod − dPeriod) ≤ i < len` (the `ℕ`-truncated
subtraction is the `max(0, ·)`). -/
def stochKValues (candles : List Candle) (kPeriod dPeriod : ℕ) : List ℚ :=
  (List.range' (candles.length - (kPeriod + dPeriod))
      (min candles.length (kPeriod + dPeriod))).filterMap
    (stochKSlot candles kPeriod)

/-- `calculateStochastic`.  `{k: 50, d: 50}` with fewer than `kPeriod`
candles.  `%K` places the latest close inside the trailing `kPeriod`
high/low range (`50` if the range is zero).  The `%D` loop walks the window
ends `max(0, len − kPeriod − dPeriod) ≤ i < len`; a window
`candles.slice(max(0, i − kPeriod + 1), i + 1)` contributes only when it
holds a full `kPeriod` candles *and* its range is non-zero; `%D` is the mean
of the last `dPeriod` contributed values, falling back to `%K` when fewer
were contributed.  (`candles[candles.length - 1]` can only be `undefined`
for `kPeriod = 0`; the engine always passes `kPeriod = 14`.) -/
def calculateStochastic (candles : List Candle) (kPeriod : ℕ := 14)
    (dPeriod : ℕ := 3) : StochOut :=
  if candles.length < kPeriod then ⟨50, 50⟩
  else
    let recentCandles := jsSliceNeg candles kPeriod
    let currentClose := ((candles.getLast?).getD dummyCandle).close
    let highestHigh := maxList (recentCandles.map (·.high))
    let lowestLow := minList (recentCandles.map (·.low))
    let k := if highestHigh ≠ lowestLow
      then stochKRaw currentClose lowestLow highestHigh else 50
    let kValues := stochKValues candles kPeriod dPeriod
    let d := if dPeriod ≤ kValues.length
      then (jsSliceNeg kValues dPeriod).sum / dPeriod else k
    ⟨k, d⟩

/-! ## ADX / ATR -/

structure ADXOut where
  value : ℚ
  plusDI : ℚ
  minusDI : ℚ
deriving DecidableEq, Repr

/-- Per-step True Range
`max(high − low, |high − prevClose|, |low − prevClose|)`. -/
def trueRange (p c : Candle) : ℚ :=
  max (c.high - c.low) (max |c.high - p.close| |c.low - p.close|)

/-- Per-step `+DM`: the up-move `high − prevHigh`, kept only when it beats
the down-move and is positive. -/
def plusDMOf (p c : Candle) : ℚ :=
  if p.low - c.low < c.high - p.high ∧ 0 < c.high - p.high
  then c.high - p.high else 0

/-- Per-step `−DM`: the down-move `prevLow − low`, kept only when it beats
the up-move and is positive. -/
def minusDMOf (p c : Candle) : ℚ :=
  if c.high - p.high < p.low - c.low ∧ 0 < p.low - c.low
  then p.low - c.low else 0

/-- The JS local `trValues` of `calculateADX`/`calculateATR`: per-step True
Ranges over all adjacent pairs. -/
def trList (candles : List Candle) : List ℚ :=
  (transitions candles).map (fun t => trueRange t.1 t.2)

/-- The JS local `plusDM` of `calculateADX`. -/
def plusDMList (candles : List Candle) : List ℚ :=
  (transitions candles).map (fun t => plusDMOf t.1 t.2)

/-- The JS local `minusDM` of `calculateADX`. -/
def minusDMList (candles : List Candle) : List ℚ :=
  (transitions candles).map (fun t => minusDMOf t.1 t.2)

/-- The JS local `atr` of `calculateADX`: simple mean of the trailing
`period` True Ranges. -/
def atrLocal (candles : List Candle) (period : ℕ) : ℚ :=
  (jsSliceNeg (trList candles) period).sum / period

/-- The JS local `avgPlusDM` of `calculateADX`. -/
def avgPlusDMOf (candles : List Candle) (period : ℕ) : ℚ :=
  (jsSliceNeg (plusDMList candles) period).sum / period

/-- The JS local `avgMinusDM` of `calculateADX`. -/
def avgMinusDMOf (candles : List Candle) (period : ℕ) : ℚ :=
  (jsSliceNeg (minusDMList candles) period).sum / period

/-- The JS local `plusDI` of `calculateADX`:
`100 · avgPlusDM / atr`, or `0` when `atr = 0`. -/
def plusDILocal (candles : List Candle) (period : ℕ) : ℚ :=
  if atrLocal candles period ≠ 0
  then avgPlusDMOf candles period / atrLocal candles period * 100 else 0

/-- The JS local `minusDI` of `calculateADX`. -/
def minusDILocal (candles : List Candle) (period : ℕ) : ℚ :=
  if atrLocal candles period ≠ 0
  then avgMinusDMOf candles period / atrLocal candles period * 100 else 0

/-- The JS local `dx` of `calculateADX`:
`100 · |+DI − −DI| / (+DI + −DI)`, or `0` when the sum is `0`. -/
def dxLocal (candles : List Candle) (period : ℕ) : ℚ :=
  if plusDILocal candles period + minusDILocal candles period ≠ 0
  then |plusDILocal candles period - minusDILocal candles period|
    / (plusDILocal candles period + minusDILocal candles period) * 100
  else 0

/-- The JS local `dxValues` of `calculateADX`: `DX` recomputed over the
rolling windows `[i − period, i)` of the TR/±DM histories for
`period ≤ i < min(len(TR), 2·period)`; samples with a zero DI sum are not
pushed. -/
def dxValuesList (candles : List Candle) (period : ℕ) : List ℚ :=
  (List.range' period
      (min (trList candles).length (period * 2) - period)).filterMap
    (fun i =>
      let atrVal := (jsSlice (trList candles) (i - period) i).sum / period
      let pDM := (jsSlice (plusDMList candles) (i - period) i).sum / period
      let mDM := (jsSlice (minusDMList candles) (i - period) i).sum / period
      let pDI := if atrVal ≠ 0 then pDM / atrVal * 100 else 0
      let mDI := if atrVal ≠ 0 then mDM / atrVal * 100 else 0
      if pDI + mDI ≠ 0 then some (|pDI - mDI| / (pDI + mDI) * 100)
      else none)

/-- `calculateADX`.  Zeros with fewer than `period + 1` candles; otherwise
the final value is the mean of the pushed `DX` samples, falling back to the
single `dx` when none was pushed, alongside the two DI values. -/
def calculateADX (candles : List Candle) (period : ℕ := 14) : ADXOut :=
  if candles.length < period + 1 then ⟨0, 0, 0⟩
  else
    ⟨if (dxValuesList candles period).length ≠ 0
        then (dxValuesList candles period).sum
          / (dxValuesList candles period).length
        else dxLocal candles period,
      plusDILocal candles period, minusDILocal candles period⟩

/-- `calculateATR`: mean True Range over the trailing `period` window
(exactly the `atr` local of `calculateADX`); `0` with fewer than
`period + 1` candles. -/
def calculateATR (candles : List Candle) (period : ℕ := 14) : ℚ :=
  if candles.length < period + 1 then 0
  else atrLocal candles period

/-! ## OBV / Momentum / ROC -/

/-- One OBV step: `+volume` on an up-close, `−volume` on a down-close, `0`
on an equal close. -/
def obvIncrement (p c : Candle) : ℚ :=
  if p.close < c.close then c.volume
  else if c.close < p.close then -c.volume else 0

/-- `calculateOBV`: cumulative signed volume from `0`; `0` with fewer than
2 candles. -/
def calculateOBV (candles : List Candle) : ℚ :=
  if candles.length < 2 then 0
  else ((transitions candles).map (fun t => obvIncrement t.1 t.2)).sum

/-- `calculateMomentum`:
`(close_now − close_{now−period}) / close_{now−period} × 100`, `0` with
fewer than `period + 1` candles. -/
def calculateMomentum (candles : List Candle) (period : ℕ := 10) : ℚ :=
  if candles.length < period + 1 then 0
  else
    let currentPrice := ((candles.getLast?).getD dummyCandle).close
    let pastPrice :=
      (candles.getD (candles.length - period - 1) dummyCandle).close
    (currentPrice - pastPrice) / pastPrice * 100

/-- `calculateROC`: the same formula as `calculateMomentum`, with default
period 12 instead of 10. -/
def calculateROC (candles : List Candle) (period : ℕ := 12) : ℚ :=
  if candles.length < period + 1 then 0
  else
    let currentPrice := ((candles.getLast?).getD dummyCandle).close
    let pastPrice :=
      (candles.getD (candles.length - period - 1) dummyCandle).close
    (currentPrice - pastPrice) / pastPrice * 100

/-! ## Support / resistance -/

structure SROut where
  nearestSupport : ℚ
  nearestResistance : ℚ
  distanceToSupport : ℚ
  distanceToResistance : ℚ
deriving DecidableEq, Repr

/-- The pivot scan of `findSupportResistance`: for
`window = 5 ≤ i < candles.length − window` the candle at `i` is a pivot
high when its high is ≥ every high in `candles.slice(i − 5, i + 6)` and a
pivot low when its low is ≤ every low there (the slice contains the candle
itself, for which the comparison is trivially true, so skipping it by
object identity as the JS `c !== center` does changes nothing).  A pivot
high pushes its high, a pivot low its low; one candle may push both. -/
def pivotPoints (candles : List Candle) : List ℚ :=
  (List.range' 5 (candles.length - 5 - 5)).flatMap
    (fun i =>
      let slice := jsSlice candles (i - 5) (i + 5 + 1)
      let center := candles.getD i dummyCandle
      let isHigh := slice.all (fun c => c.high ≤ center.high)
      let isLow := slice.all (fun c => center.low ≤ c.low)
      (if isHigh then [center.high] else []) ++
        (if isLow then [center.low] else []))

/-- `findSupportResistance`.  With fewer than 20 candles: synthetic levels
at ±2%.  Otherwise the pivots below / above `currentPrice` are collected;
JS sorts the supports descending and the resistances ascending and takes
element `[0]`, i.e. the greatest support and least resistance, with
fallbacks `×0.97` / `×1.03` when a side is empty.  Distances are percentage
offsets from `currentPrice`. -/
def findSupportResistance (candles : List Candle) (currentPrice : ℚ) :
    SROut :=
  if candles.length < 20 then
    ⟨currentPrice * 0.98, currentPrice * 1.02, 2, 2⟩
  else
    let pts := pivotPoints candles
    let supports := pts.filter (fun q => q < currentPrice)
    let resistances := pts.filter (fun q => currentPrice < q)
    let nearestSupport :=
      if supports ≠ [] then maxList supports else currentPrice * 0.97
    let nearestResistance :=
      if resistances ≠ [] then minList resistances else currentPrice * 1.03
    ⟨nearestSupport, nearestResistance,
      (currentPrice - nearestSupport) / currentPrice * 100,
      (nearestResistance - currentPrice) / currentPrice * 100⟩

/-! ## Trend strength -/

/-- The close-to-close directions visited by the trend-strength run loop
`for (let i = len − 1; i > len − 11 && i > 0; i--)`: most recent first,
`1` when `close[i] > close[i−1]`, else `-1` (an equal close counts as
down). -/
def runDirections (candles : List Candle) : List ℤ :=
  ((List.range' (max (candles.length - 10) 1)
      (candles.length - max (candles.length - 10) 1)).reverse).map
    (fun i =>
      if (candles.getD (i - 1) dummyCandle).close
          < (candles.getD i dummyCandle).close
      then (1 : ℤ) else -1)

/-- Length of the maximal constant prefix of the direction list: the loop
counts matching directions and breaks at the first reversal. -/
def runCount : List ℤ → ℕ
  | [] => 0
  | d :: rest => 1 + (rest.takeWhile (fun x => x == d)).length

/-- `calculateTrendStrength`.  `0` with fewer than 20 candles; otherwise
`min(100, (adxValue + |priceVsSma20Percent| · 10 + 10 · run) / 3)` where
`run` is the consecutive same-direction close count above.  (The JS call
`calculateSMA(prices, 20)` cannot throw here because the guard makes
`prices` non-empty, so `smaCore` is its exact value.) -/
def calculateTrendStrength (candles : List Candle) (adxValue : ℚ) : ℚ :=
  if candles.length < 20 then 0
  else
    let prices := candles.map (·.close)
    let sma20 := smaCore prices 20
    let currentPrice := (prices.getLast?).getD 0
    let pricePositionScore := (currentPrice - sma20) / sma20 * 100
    let momentumScore : ℚ := (runCount (runDirections candles) : ℚ) * 10
    let trendStrength :=
      (adxValue + |pricePositionScore| * 10 + momentumScore) / 3
    min 100 trendStrength

/-! ## Bollinger Bands (over `ℝ`, for `Math.sqrt`) -/

structure BBOut where
  upper : ℝ
  middle : ℝ
  lower : ℝ

/-- The JS local `variance` of `calculateBollingerBands`: squared
deviations from the SMA over the trailing `period`-slice, divided by
`period` (population variance — even when the slice is shorter). -/
def bbVariance (candles : List Candle) (period : ℕ) : ℚ :=
  ((jsSliceNeg (candles.map (·.close)) period).map
    (fun price => (price - smaCore (candles.map (·.close)) period) ^ 2)).sum
    / period

/-- Arithmetic of `calculateBollingerBands`: middle = SMA(period), bands at
middle ± 2·stdDev.  All inputs to `Math.sqrt` are rational, the result is
real. -/
noncomputable def bbCore (candles : List Candle) (period : ℕ) : BBOut :=
  ⟨(smaCore (candles.map (·.close)) period : ℝ)
      + Real.sqrt ((bbVariance candles period : ℚ) : ℝ) * 2,
    (smaCore (candles.map (·.close)) period : ℝ),
    (smaCore (candles.map (·.close)) period : ℝ)
      - Real.sqrt ((bbVariance candles period : ℚ) : ℝ) * 2⟩

/-- `calculateBollingerBands`.  The inner `calculateSMA` and the variance
`reduce` throw exactly on an empty candle list: `none` iff `candles = []`. -/
noncomputable def calculateBollingerBands (candles : List Candle)
    (period : ℕ := 20) : Option BBOut :=
  if candles = [] then none else some (bbCore candles period)

/-- The caller-side bandwidth of `analyzeMarket`:
`(upper − lower) / middle × 100`. -/
noncomputable def bollingerBandwidth (b : BBOut) : ℝ :=
  (b.upper - b.lower) / b.middle * 100

/-! ## General helper lemmas -/

theorem jsSliceNeg_subset (l : List α) (n : ℕ) : jsSliceNeg l n ⊆ l := by
  unfold jsSliceNeg
  split
  · exact List.Subset.refl l
  · exact List.drop_subset _ l

theorem jsSlice_subset (l : List α) (a b : ℕ) : jsSlice l a b ⊆ l :=
  fun _ hx => List.take_subset b l (List.drop_subset a _ hx)

theorem jsSliceNeg_map (f : α → β) (l : List α) (n : ℕ) :
    jsSliceNeg (l.map f) n = (jsSliceNeg l n).map f := by
  unfold jsSliceNeg
  rw [List.length_map]
  split
  · rfl
  · rw [List.map_drop]

theorem foldl_max_eq_or_mem :
    ∀ (l : List ℚ) (x : ℚ), l.foldl max x = x ∨ l.foldl max x ∈ l
  | [], _ => Or.inl rfl
  | a :: l, x => by
    rcases foldl_max_eq_or_mem l (max x a) with h | h
    · rcases max_choice x a with hm | hm
      · exact Or.inl (by rw [List.foldl_cons, h, hm])
      · exact Or.inr (by rw [List.foldl_cons, h, hm]; exact List.mem_cons_self a l)
    · exact Or.inr (List.mem_cons_of_mem a h)

theorem le_foldl_max :
    ∀ (l : List ℚ) (x : ℚ), x ≤ l.foldl max x ∧ ∀ a ∈ l, a ≤ l.foldl max x
  | [], x => ⟨le_refl x, by intro a ha; cases ha⟩
  | a :: l, x => by
    obtain ⟨h1, h2⟩ := le_foldl_max l (max x a)
    refine ⟨le_trans (le_max_left x a) h1, ?_⟩
    intro b hb
    rcases List.mem_cons.mp hb with rfl | hb
    · exact le_trans (le_max_right x b) h1
    · exact h2 b hb

theorem foldl_min_eq_or_mem :
    ∀ (l : List ℚ) (x : ℚ), l.foldl min x = x ∨ l.foldl min x ∈ l
  | [], _ => Or.inl rfl
  | a :: l, x => by
    rcases foldl_min_eq_or_mem l (min x a) with h | h
    · rcases min_choice x a with hm | hm
      · exact Or.inl (by rw [List.foldl_cons, h, hm])
      · exact Or.inr (by rw [List.foldl_cons, h, hm]; exact List.mem_cons_self a l)
    · exact Or.inr (List.mem_cons_of_mem a h)

theorem foldl_min_le :
    ∀ (l : List ℚ) (x : ℚ), l.foldl min x ≤ x ∧ ∀ a ∈ l, l.foldl min x ≤ a
  | [], x => ⟨le_refl x, by intro a ha; cases ha⟩
  | a :: l, x => by
    obtain ⟨h1, h2⟩ := foldl_min_le l (min x a)
    refine ⟨le_trans h1 (min_le_left x a), ?_⟩
    intro b hb
    rcases List.mem_cons.mp hb with rfl | hb
    · exact le_trans h1 (min_le_right x b)
    · exact h2 b hb

theorem maxList_mem {l : List ℚ} (h : l ≠ []) : maxList l ∈ l := by
  cases l with
  | nil => exact absurd rfl h
  | cons a l =>
    rcases foldl_max_eq_or_mem l a with h' | h'
    · rw [maxList, h']; exact List.mem_cons_self a l
    · exact List.mem_cons_of_mem a h'

theorem le_maxList {l : List ℚ} {a : ℚ} (h : a ∈ l) : a ≤ maxList l := by
  cases l with
  | nil => cases h
  | cons b l =>
    rcases List.mem_cons.mp h with rfl | h'
    · exact (le_foldl_max l a).1
    · exact (le_foldl_max l b).2 a h'

theorem minList_mem {l : List ℚ} (h : l ≠ []) : minList l ∈ l := by
  cases l with
  | nil => exact absurd rfl h
  | cons a l =>
    rcases foldl_min_eq_or_mem l a with h' | h'
    · rw [minList, h']; exact List.mem_cons_self a l
    · exact List.mem_cons_of_mem a h'

theorem minList_le {l : List ℚ} {a : ℚ} (h : a ∈ l) : minList l ≤ a := by
  cases l with
  | nil => cases h
  | cons b l =>
    rcases List.mem_cons.mp h with rfl | h'
    · exact (foldl_min_le l a).1
    · exact (foldl_min_le l b).2 a h'

/-- Mean of a non-empty list bounded in `[lo, hi]` stays in `[lo, hi]`. -/
theorem mean_bounds {l : List ℚ} (hne : l ≠ []) {hi : ℚ}
    (h0 : ∀ x ∈ l, 0 ≤ x) (hhi : ∀ x ∈ l, x ≤ hi) :
    0 ≤ l.sum / l.length ∧ l.sum / l.length ≤ hi := by
  have hlen : 0 < (l.length : ℚ) := by
    have := List.length_pos.mpr hne
    exact_mod_cast this
  constructor
  · exact div_nonneg (List.sum_nonneg h0) (le_of_lt hlen)
  · rw [div_le_iff₀ hlen]
    calc l.sum ≤ l.length • hi := List.sum_le_card_nsmul l hi hhi
    _ = hi * l.length := by rw [nsmul_eq_mul]; ring

theorem chain'_drop {R : α → α → Prop} {l : List α} (h : l.Chain' R)
    (n : ℕ) : (l.drop n).Chain' R := by
  induction n with
  | zero => simpa using h
  | succ n ih => rw [← List.tail_drop]; exact ih.tail

theorem adjDiffs_nonneg :
    ∀ {l : List ℚ}, l.Chain' (· ≤ ·) → ∀ c ∈ adjDiffs l, 0 ≤ c
  | [], _, c, hc => by simp [adjDiffs] at hc
  | [_], _, c, hc => by simp [adjDiffs] at hc
  | a :: b :: r, h, c, hc => by
    rw [show adjDiffs (a :: b :: r) = (b - a) :: adjDiffs (b :: r) from rfl]
      at hc
    rcases List.mem_cons.mp hc with rfl | hc
    · have hab := (List.chain'_cons.mp h).1
      simpa using hab
    · exact adjDiffs_nonneg (List.chain'_cons.mp h).2 c hc

theorem transitions_cons₂ (a b : Candle) (l : List Candle) :
    transitions (a :: b :: l) = (a, b) :: transitions (b :: l) := rfl

theorem transitions_mem {t : Candle × Candle} :
    ∀ {l : List Candle}, t ∈ transitions l → t.1 ∈ l ∧ t.2 ∈ l
  | [], h => by cases h
  | [_], h => by cases h
  | a :: b :: r, h => by
    rw [transitions_cons₂] at h
    rcases List.mem_cons.mp h with rfl | h
    · exact ⟨List.mem_cons_self _ _, List.mem_cons_of_mem _ (List.mem_cons_self _ _)⟩
    · obtain ⟨h1, h2⟩ := transitions_mem h
      exact ⟨List.mem_cons_of_mem _ h1, List.mem_cons_of_mem _ h2⟩

theorem transitions_rel {R : Candle → Candle → Prop} :
    ∀ {l : List Candle}, l.Chain' R → ∀ t ∈ transitions l, R t.1 t.2
  | [], _, t, ht => by cases ht
  | [_], _, t, ht => by cases ht
  | _ :: b :: r, h, t, ht => by
    rw [transitions_cons₂] at ht
    rcases List.mem_cons.mp ht with rfl | ht
    · exact (List.chain'_cons.mp h).1
    · exact transitions_rel (List.chain'_cons.mp h).2 t ht

theorem transitions_append_last :
    ∀ (l : List Candle) (hl : l ≠ []) (c : Candle),
      transitions (l ++ [c]) = transitions l ++ [(l.getLast hl, c)]
  | [], hl, _ => absurd rfl hl
  | [a], _, c => rfl
  | a :: b :: r, _, c => by
    have ih := transitions_append_last (b :: r) (List.cons_ne_nil b r) c
    show transitions (a :: b :: (r ++ [c])) = _
    rw [transitions_cons₂]
    rw [show (b :: (r ++ [c])) = (b :: r) ++ [c] from rfl, ih]
    rfl

theorem transitions_map (f : Candle → Candle) :
    ∀ l : List Candle,
      transitions (l.map f) = (transitions l).map (fun t => (f t.1, f t.2))
  | [] => rfl
  | [_] => rfl
  | a :: b :: r => by
    have ih := transitions_map f (b :: r)
    show transitions (f a :: f b :: (r.map f)) = _
    rw [transitions_cons₂, show (f b :: r.map f) = (b :: r).map f from rfl, ih]
    rfl

/-! ## ADX bound lemmas -/

theorem trueRange_nonneg (p c : Candle) : 0 ≤ trueRange p c :=
  le_trans (abs_nonneg (c.high - p.close))
    (le_trans (le_max_left _ _) (le_max_right _ _))

theorem plusDMOf_nonneg (p c : Candle) : 0 ≤ plusDMOf p c := by
  unfold plusDMOf
  split_ifs with h
  · linarith [h.2]
  · exact le_refl 0

theorem minusDMOf_nonneg (p c : Candle) : 0 ≤ minusDMOf p c := by
  unfold minusDMOf
  split_ifs with h
  · linarith [h.2]
  · exact le_refl 0

theorem plusDMOf_le_trueRange (p c : Candle) (h : p.close ≤ p.high) :
    plusDMOf p c ≤ trueRange p c := by
  unfold plusDMOf trueRange
  split_ifs with hc
  · have h1 : c.high - p.high ≤ |c.high - p.close| :=
      le_trans (by linarith) (le_abs_self _)
    exact le_trans h1 (le_trans (le_max_left _ _) (le_max_right _ _))
  · exact trueRange_nonneg p c

theorem minusDMOf_le_trueRange (p c : Candle) (h : p.low ≤ p.close) :
    minusDMOf p c ≤ trueRange p c := by
  unfold minusDMOf trueRange
  split_ifs with hc
  · have h1 : p.low - c.low ≤ |c.low - p.close| := by
      rw [abs_sub_comm]
      exact le_trans (by linarith) (le_abs_self _)
    exact le_trans h1 (le_trans (le_max_right _ _) (le_max_right _ _))
  · exact trueRange_nonneg p c

theorem trList_nonneg (candles : List Candle) : ∀ x ∈ trList candles, 0 ≤ x := by
  intro x hx
  obtain ⟨t, _, rfl⟩ := List.mem_map.mp hx
  exact trueRange_nonneg t.1 t.2

theorem plusDMList_nonneg (candles : List Candle) :
    ∀ x ∈ plusDMList candles, 0 ≤ x := by
  intro x hx
  obtain ⟨t, _, rfl⟩ := List.mem_map.mp hx
  exact plusDMOf_nonneg t.1 t.2

theorem minusDMList_nonneg (candles : List Candle) :
    ∀ x ∈ minusDMList candles, 0 ≤ x := by
  intro x hx
  obtain ⟨t, _, rfl⟩ := List.mem_map.mp hx
  exact minusDMOf_nonneg t.1 t.2

theorem atrLocal_nonneg (candles : List Candle) (period : ℕ) :
    0 ≤ atrLocal candles period := by
  unfold atrLocal
  refine div_nonneg (List.sum_nonneg ?_) (by positivity)
  intro x hx
  exact trList_nonneg candles x (jsSliceNeg_subset _ _ hx)

theorem avgPlusDM_nonneg (candles : List Candle) (period : ℕ) :
    0 ≤ avgPlusDMOf candles period := by
  unfold avgPlusDMOf
  refine div_nonneg (List.sum_nonneg ?_) (by positivity)
  intro x hx
  exact plusDMList_nonneg candles x (jsSliceNeg_subset _ _ hx)

theorem avgMinusDM_nonneg (candles : List Candle) (period : ℕ) :
    0 ≤ avgMinusDMOf candles period := by
  unfold avgMinusDMOf
  refine div_nonneg (List.sum_nonneg ?_) (by positivity)
  intro x hx
  exact minusDMList_nonneg candles x (jsSliceNeg_subset _ _ hx)

/-- With the candle invariant `low ≤ close ≤ high`, each `+DM` is bounded by
its True Range, so the trailing means compare. -/
theorem avgPlusDM_le_atrLocal (candles : List Candle) (period : ℕ)
    (hwf : ∀ c ∈ candles, c.low ≤ c.close ∧ c.close ≤ c.high) :
    avgPlusDMOf candles period ≤ atrLocal candles period := by
  unfold avgPlusDMOf atrLocal plusDMList trList
  rw [jsSliceNeg_map, jsSliceNeg_map]
  refine div_le_div_of_nonneg_right (List.sum_le_sum ?_) (by positivity)
  intro t ht
  have h1 := transitions_mem (jsSliceNeg_subset _ _ ht)
  exact plusDMOf_le_trueRange t.1 t.2 (hwf t.1 h1.1).2

theorem avgMinusDM_le_atrLocal (candles : List Candle) (period : ℕ)
    (hwf : ∀ c ∈ candles, c.low ≤ c.close ∧ c.close ≤ c.high) :
    avgMinusDMOf candles period ≤ atrLocal candles period := by
  unfold avgMinusDMOf atrLocal minusDMList trList
  rw [jsSliceNeg_map, jsSliceNeg_map]
  refine div_le_div_of_nonneg_right (List.sum_le_sum ?_) (by positivity)
  intro t ht
  have h1 := transitions_mem (jsSliceNeg_subset _ _ ht)
  exact minusDMOf_le_trueRange t.1 t.2 (hwf t.1 h1.1).1

theorem plusDILocal_nonneg (candles : List Candle) (period : ℕ) :
    0 ≤ plusDILocal candles period := by
  unfold plusDILocal
  split_ifs with h
  · have hpos : 0 < atrLocal candles period :=
      lt_of_le_of_ne (atrLocal_nonneg candles period) (Ne.symm h)
    have h1 := avgPlusDM_nonneg candles period
    positivity
  · exact le_refl 0

theorem minusDILocal_nonneg (candles : List Candle) (period : ℕ) :
    0 ≤ minusDILocal candles period := by
  unfold minusDILocal
  split_ifs with h
  · have hpos : 0 < atrLocal candles period :=
      lt_of_le_of_ne (atrLocal_nonneg candles period) (Ne.symm h)
    have h1 := avgMinusDM_nonneg candles period
    positivity
  · exact le_refl 0

theorem plusDILocal_le_100 (candles : List Candle) (period : ℕ)
    (hwf : ∀ c ∈ candles, c.low ≤ c.close ∧ c.close ≤ c.high) :
    plusDILocal candles period ≤ 100 := by
  unfold plusDILocal
  split_ifs with h
  · have hpos : 0 < atrLocal candles period :=
      lt_of_le_of_ne (atrLocal_nonneg candles period) (Ne.symm h)
    have h1 : avgPlusDMOf candles period / atrLocal candles period ≤ 1 :=
      (div_le_one hpos).mpr (avgPlusDM_le_atrLocal candles period hwf)
    linarith
  · norm_num

theorem minusDILocal_le_100 (candles : List Candle) (period : ℕ)
    (hwf : ∀ c ∈ candles, c.low ≤ c.close ∧ c.close ≤ c.high) :
    minusDILocal candles period ≤ 100 := by
  unfold minusDILocal
  split_ifs with h
  · have hpos : 0 < atrLocal candles period :=
      lt_of_le_of_ne (atrLocal_nonneg candles period) (Ne.symm h)
    have h1 : avgMinusDMOf candles period / atrLocal candles period ≤ 1 :=
      (div_le_one hpos).mpr (avgMinusDM_le_atrLocal candles period hwf)
    linarith
  · norm_num

/-- The guarded `DX` formula stays in `[0, 100]` whenever both DI inputs are
non-negative. -/
theorem dx_if_bounds {p m : ℚ} (hp : 0 ≤ p) (hm : 0 ≤ m) :
    0 ≤ (if p + m ≠ 0 then |p - m| / (p + m) * 100 else 0) ∧
      (if p + m ≠ 0 then |p - m| / (p + m) * 100 else 0) ≤ 100 := by
  split_ifs with h
  · have hpm : 0 < p + m := lt_of_le_of_ne (by linarith) (Ne.symm h)
    have habs : |p - m| ≤ p + m := abs_le.mpr ⟨by linarith, by linarith⟩
    have h1 : |p - m| / (p + m) ≤ 1 := (div_le_one hpm).mpr habs
    have h2 : 0 ≤ |p - m| / (p + m) := div_nonneg (abs_nonneg _) hpm.le
    constructor <;> linarith
  · norm_num

theorem dxLocal_bounds (candles : List Candle) (period : ℕ) :
    0 ≤ dxLocal candles period ∧ dxLocal candles period ≤ 100 := by
  unfold dxLocal
  exact dx_if_bounds (plusDILocal_nonneg candles period)
    (minusDILocal_nonneg candles period)

theorem mem_dxValuesList_bounds (candles : List Candle) (period : ℕ) :
    ∀ x ∈ dxValuesList candles period, 0 ≤ x ∧ x ≤ 100 := by
  intro x hx
  unfold dxValuesList at hx
  obtain ⟨i, _, hi⟩ := List.mem_filterMap.mp hx
  dsimp only at hi
  set atrVal := (jsSlice (trList candles) (i - period) i).sum / (period : ℚ)
    with hatr
  set pDM := (jsSlice (plusDMList candles) (i - period) i).sum / (period : ℚ)
    with hpdm
  set mDM := (jsSlice (minusDMList candles) (i - period) i).sum / (period : ℚ)
    with hmdm
  have hatr0 : 0 ≤ atrVal := by
    rw [hatr]
    refine div_nonneg (List.sum_nonneg ?_) (by positivity)
    intro y hy
    exact trList_nonneg candles y (jsSlice_subset _ _ _ hy)
  have hpdm0 : 0 ≤ pDM := by
    rw [hpdm]
    refine div_nonneg (List.sum_nonneg ?_) (by positivity)
    intro y hy
    exact plusDMList_nonneg candles y (jsSlice_subset _ _ _ hy)
  have hmdm0 : 0 ≤ mDM := by
    rw [hmdm]
    refine div_nonneg (List.sum_nonneg ?_) (by positivity)
    intro y hy
    exact minusDMList_nonneg candles y (jsSlice_subset _ _ _ hy)
  set pDI := (if atrVal ≠ 0 then pDM / atrVal * 100 else 0) with hpdi
  set mDI := (if atrVal ≠ 0 then mDM / atrVal * 100 else 0) with hmdi
  have hp : 0 ≤ pDI := by
    rw [hpdi]
    split_ifs with h
    · have hpos : 0 < atrVal := lt_of_le_of_ne hatr0 (Ne.symm h)
      positivity
    · exact le_refl 0
  have hm : 0 ≤ mDI := by
    rw [hmdi]
    split_ifs with h
    · have hpos : 0 < atrVal := lt_of_le_of_ne hatr0 (Ne.symm h)
      positivity
    · exact le_refl 0
  have hbounds := dx_if_bounds hp hm
  by_cases hcond : pDI + mDI ≠ 0
  · rw [if_pos hcond] at hi hbounds
    obtain rfl := Option.some.inj hi
    exact hbounds
  · rw [if_neg hcond] at hi
    cases hi

/-- `ADX.value` lies in `[0, 100]` for every input (well-formed or not). -/
theorem adx_value_bounds (candles : List Candle) (period : ℕ) :
    0 ≤ (calculateADX candles period).value ∧
      (calculateADX candles period).value ≤ 100 := by
  unfold calculateADX
  split_ifs with h hlen
  · exact ⟨le_refl 0, by norm_num⟩
  · have hne : dxValuesList candles period ≠ [] := by
      intro hnil
      rw [hnil] at hlen
      exact hlen rfl
    exact mean_bounds hne
      (fun x hx => (mem_dxValuesList_bounds candles period x hx).1)
      (fun x hx => (mem_dxValuesList_bounds candles period x hx).2)
  · exact dxLocal_bounds candles period

/-! ## OBV lemmas -/

/-- Reflection of the close about the constant `K` (`x ↦ 2K − x`), volumes
and the remaining fields untouched. -/
def mirrorCandle (K : ℚ) (c : Candle) : Candle :=
  { c with close := 2 * K - c.close }

theorem obv_eq_sum (candles : List Candle) :
    calculateOBV candles =
      ((transitions candles).map (fun t => obvIncrement t.1 t.2)).sum := by
  unfold calculateOBV
  split
  · match candles with
    | [] => rfl
    | [_] => rfl
  · rfl

theorem obvIncrement_nonneg {p c : Candle} (hle : p.close ≤ c.close)
    (hv : 0 ≤ c.volume) : 0 ≤ obvIncrement p c := by
  unfold obvIncrement
  split_ifs <;> linarith

theorem sum_map_neg (l : List α) (f : α → ℚ) :
    (l.map (fun x => -f x)).sum = -(l.map f).sum := by
  induction l with
  | nil => simp
  | cons a l ih =>
    simp only [List.map_cons, List.sum_cons, ih, neg_add]

theorem obvIncrement_mirror (K : ℚ) (p c : Candle) :
    obvIncrement (mirrorCandle K p) (mirrorCandle K c) = -obvIncrement p c := by
  unfold obvIncrement mirrorCandle
  dsimp only
  split_ifs <;> linarith

/-! ## Concrete inputs used in counterexamples and witnesses -/

/-- 17 candles: three wide-range bars followed by fourteen flat bars, so the
trailing 14-window has zero range while the three windows before it do not. -/
def exStoch : List Candle :=
  [⟨0, 0, 10, 1, 5, 0⟩, ⟨1, 0, 10, 1, 5, 0⟩, ⟨2, 0, 10, 1, 5, 0⟩,
   ⟨3, 0, 5, 5, 5, 0⟩, ⟨4, 0, 5, 5, 5, 0⟩, ⟨5, 0, 5, 5, 5, 0⟩,
   ⟨6, 0, 5, 5, 5, 0⟩, ⟨7, 0, 5, 5, 5, 0⟩, ⟨8, 0, 5, 5, 5, 0⟩,
   ⟨9, 0, 5, 5, 5, 0⟩, ⟨10, 0, 5, 5, 5, 0⟩, ⟨11, 0, 5, 5, 5, 0⟩,
   ⟨12, 0, 5, 5, 5, 0⟩, ⟨13, 0, 5, 5, 5, 0⟩, ⟨14, 0, 5, 5, 5, 0⟩,
   ⟨15, 0, 5, 5, 5, 0⟩, ⟨16, 0, 5, 5, 5, 0⟩]

/-- 15 malformed candles (`close > high`, which the engine never validates):
each bar sits 100 above the previous one while its close lands just past the
next bar, making every true range 1 and every `+DM` 100. -/
def exADX : List Candle :=
  [⟨0, 0, 0, 0, 101, 0⟩, ⟨1, 0, 100, 100, 201, 0⟩,
   ⟨2, 0, 200, 200, 301, 0⟩, ⟨3, 0, 300, 300, 401, 0⟩,
   ⟨4, 0, 400, 400, 501, 0⟩, ⟨5, 0, 500, 500, 601, 0⟩,
   ⟨6, 0, 600, 600, 701, 0⟩, ⟨7, 0, 700, 700, 801, 0⟩,
   ⟨8, 0, 800, 800, 901, 0⟩, ⟨9, 0, 900, 900, 1001, 0⟩,
   ⟨10, 0, 1000, 1000, 1101, 0⟩, ⟨11, 0, 1100, 1100, 1201, 0⟩,
   ⟨12, 0, 1200, 1200, 1301, 0⟩, ⟨13, 0, 1300, 1300, 1401, 0⟩,
   ⟨14, 0, 1400, 1400, 1501, 0⟩]

/-- Two candles with non-decreasing closes but a negative volume on the
up-move. -/
def exOBV : List Candle := [⟨0, 0, 0, 0, 1, 1⟩, ⟨1, 0, 0, 0, 2, -5⟩]

/-- Two candles whose closes average to a negative middle band. -/
def exBB : List Candle := [⟨0, 0, 0, 0, -3, 0⟩, ⟨1, 0, 0, 0, -1, 0⟩]

/-- 20 well-formed candles, flat except for one clear pivot high (index 7,
high 20) and one clear pivot low (index 12, low 1). -/
def exSR : List Candle :=
  [⟨0, 0, 10, 5, 7, 0⟩, ⟨1, 0, 10, 5, 7, 0⟩, ⟨2, 0, 10, 5, 7, 0⟩,
   ⟨3, 0, 10, 5, 7, 0⟩, ⟨4, 0, 10, 5, 7, 0⟩, ⟨5, 0, 10, 5, 7, 0⟩,
   ⟨6, 0, 10, 5, 7, 0⟩, ⟨7, 0, 20, 5, 7, 0⟩, ⟨8, 0, 10, 5, 7, 0⟩,
   ⟨9, 0, 10, 5, 7, 0⟩, ⟨10, 0, 10, 5, 7, 0⟩, ⟨11, 0, 10, 5, 7, 0⟩,
   ⟨12, 0, 10, 1, 7, 0⟩, ⟨13, 0, 10, 5, 7, 0⟩, ⟨14, 0, 10, 5, 7, 0⟩,
   ⟨15, 0, 10, 5, 7, 0⟩, ⟨16, 0, 10, 5, 7, 0⟩, ⟨17, 0, 10, 5, 7, 0⟩,
   ⟨18, 0, 10, 5, 7, 0⟩, ⟨19, 0, 10, 5, 7, 0⟩]

/-- 15 candles with strictly increasing closes `100, 101, …, 114`
(spec scenario A). -/
def exRSIUp : List Candle :=
  [⟨0, 0, 0, 0, 100, 0⟩, ⟨1, 0, 0, 0, 101, 0⟩, ⟨2, 0, 0, 0, 102, 0⟩,
   ⟨3, 0, 0, 0, 103, 0⟩, ⟨4, 0, 0, 0, 104, 0⟩, ⟨5, 0, 0, 0, 105, 0⟩,
   ⟨6, 0, 0, 0, 106, 0⟩, ⟨7, 0, 0, 0, 107, 0⟩, ⟨8, 0, 0, 0, 108, 0⟩,
   ⟨9, 0, 0, 0, 109, 0⟩, ⟨10, 0, 0, 0, 110, 0⟩, ⟨11, 0, 0, 0, 111, 0⟩,
   ⟨12, 0, 0, 0, 112, 0⟩, ⟨13, 0, 0, 0, 113, 0⟩, ⟨14, 0, 0, 0, 114, 0⟩]

/-- 20 candles with strictly increasing closes and non-negative volumes. -/
def exTrend : List Candle :=
  [⟨0, 0, 100, 100, 100, 5⟩, ⟨1, 0, 101, 101, 101, 5⟩,
   ⟨2, 0, 102, 102, 102, 5⟩, ⟨3, 0, 103, 103, 103, 5⟩,
   ⟨4, 0, 104, 104, 104, 5⟩, ⟨5, 0, 105, 105, 105, 5⟩,
   ⟨6, 0, 106, 106, 106, 5⟩, ⟨7, 0, 107, 107, 107, 5⟩,
   ⟨8, 0, 108, 108, 108, 5⟩, ⟨9, 0, 109, 109, 109, 5⟩,
   ⟨10, 0, 110, 110, 110, 5⟩, ⟨11, 0, 111, 111, 111, 5⟩,
   ⟨12, 0, 112, 112, 112, 5⟩, ⟨13, 0, 113, 113, 113, 5⟩,
   ⟨14, 0, 114, 114, 114, 5⟩, ⟨15, 0, 115, 115, 115, 5⟩,
   ⟨16, 0, 116, 116, 116, 5⟩, ⟨17, 0, 117, 117, 117, 5⟩,
   ⟨18, 0, 118, 118, 118, 5⟩, ⟨19, 0, 119, 119, 119, 5⟩]

/-! ## C1 — totality / defaults of the calculators -/

/-- **C1, counterexample.**  The claim says every calculator returns its
documented default on short input and never raises or yields an
undefined/NaN component, naming SMA/EMA on an empty list and MACD with
fewer than 26 closes.  In fact `calculateSMA` throws on an empty list
(`reduce` of an empty array) and `calculateMACD` on 25 candles computes
`signal = undefined` and `histogram = NaN` (its reconstructed MACD history
is empty). -/
theorem sma_empty_macd_short_cex :
    calculateSMA ([] : List ℚ) 20 = none ∧
      calculateMACD (List.replicate 25 dummyCandle) = none := by
  constructor
  · rfl
  · rfl

/-- **C1, amended.**  Every calculator with an explicit length guard (RSI,
Stochastic, ADX, ATR, OBV, Momentum, ROC, volume indicator,
support/resistance, trend strength) returns its documented default on short
input and is total; SMA, EMA and Bollinger are defined exactly on non-empty
input, and MACD has all components defined exactly from 26 closes on. -/
theorem calculator_defaults (candles : List Candle) (prices : List ℚ)
    (n : ℕ) (price : ℚ) :
    (candles.length < 15 → calculateRSI candles 14 = 50) ∧
    (candles.length < 14 → calculateStochastic candles 14 3 = ⟨50, 50⟩) ∧
    (candles.length < 15 → calculateADX candles 14 = ⟨0, 0, 0⟩) ∧
    (candles.length < 15 → calculateATR candles 14 = 0) ∧
    (candles.length < 2 → calculateOBV candles = 0) ∧
    (candles.length < 11 → calculateMomentum candles 10 = 0) ∧
    (candles.length < 13 → calculateROC candles 12 = 0) ∧
    (candles.length < 10 → calculateVolumeIndicator candles = 0) ∧
    (candles.length < 20 →
      findSupportResistance candles price =
        ⟨price * 0.98, price * 1.02, 2, 2⟩) ∧
    (candles.length < 20 → calculateTrendStrength candles price = 0) ∧
    (prices ≠ [] →
      calculateSMA prices n = some (smaCore prices n) ∧
      calculateEMA prices n = some (emaCore prices n)) ∧
    (candles ≠ [] →
      calculateBollingerBands candles n = some (bbCore candles n)) ∧
    (26 ≤ candles.length → calculateMACD candles = some (macdCore candles)) ∧
    (candles.length < 26 → calculateMACD candles = none) := by
  refine ⟨?_, ?_, ?_, ?_, ?_, ?_, ?_, ?_, ?_, ?_, ?_, ?_, ?_, ?_⟩
  · intro h; unfold calculateRSI; rw [if_pos h]
  · intro h; unfold calculateStochastic; rw [if_pos h]
  · intro h; unfold calculateADX; rw [if_pos h]
  · intro h; unfold calculateATR; rw [if_pos h]
  · intro h; unfold calculateOBV; rw [if_pos h]
  · intro h; unfold calculateMomentum; rw [if_pos h]
  · intro h; unfold calculateROC; rw [if_pos h]
  · intro h; unfold calculateVolumeIndicator; rw [if_pos h]
  · intro h; unfold findSupportResistance; rw [if_pos h]
  · intro h; unfold calculateTrendStrength; rw [if_pos h]
  · intro h
    unfold calculateSMA calculateEMA
    rw [if_neg h, if_neg h]
    exact ⟨rfl, rfl⟩
  · intro h; unfold calculateBollingerBands; rw [if_neg h]
  · intro h; unfold calculateMACD; rw [if_neg (by omega)]
  · intro h; unfold calculateMACD; rw [if_pos h]

/-- Witness for `calculator_defaults`: each hypothesis discharged at a
concrete input. -/
theorem calculator_defaults_witness :
    calculateRSI (List.replicate 5 dummyCandle) 14 = 50 ∧
    calculateStochastic (List.replicate 5 dummyCandle) 14 3 = ⟨50, 50⟩ ∧
    calculateADX (List.replicate 5 dummyCandle) 14 = ⟨0, 0, 0⟩ ∧
    calculateATR (List.replicate 5 dummyCandle) 14 = 0 ∧
    calculateOBV [dummyCandle] = 0 ∧
    calculateMomentum (List.replicate 5 dummyCandle) 10 = 0 ∧
    calculateROC (List.replicate 5 dummyCandle) 12 = 0 ∧
    calculateVolumeIndicator (List.replicate 5 dummyCandle) = 0 ∧
    findSupportResistance (List.replicate 5 dummyCandle) 1 =
      ⟨1 * 0.98, 1 * 1.02, 2, 2⟩ ∧
    calculateTrendStrength (List.replicate 5 dummyCandle) 1 = 0 ∧
    calculateSMA [3] 20 = some (smaCore [3] 20) ∧
    calculateEMA [3] 20 = some (emaCore [3] 20) ∧
    calculateBollingerBands [dummyCandle] 20 = some (bbCore [dummyCandle] 20) ∧
    calculateMACD (List.replicate 26 dummyCandle) =
      some (macdCore (List.replicate 26 dummyCandle)) ∧
    calculateMACD (List.replicate 25 dummyCandle) = none := by
  obtain ⟨h1, h2, h3, h4, _, h6, h7, h8, h9, h10, _, _, _, h14⟩ :=
    calculator_defaults (List.replicate 5 dummyCandle) [3] 20 1
  obtain ⟨_, _, _, _, h5, _, _, _, _, _, _, _, _, _⟩ :=
    calculator_defaults [dummyCandle] [3] 20 1
  obtain ⟨_, _, _, _, _, _, _, _, _, _, h11, h12, _, _⟩ :=
    calculator_defaults (List.replicate 5 dummyCandle) [3] 20 1
  obtain ⟨_, _, _, _, _, _, _, _, _, _, _, hbb, _, _⟩ :=
    calculator_defaults [dummyCandle] [3] 20 1
  obtain ⟨_, _, _, _, _, _, _, _, _, _, _, _, h13, _⟩ :=
    calculator_defaults (List.replicate 26 dummyCandle) [3] 20 1
  obtain ⟨h11', h12'⟩ := h11 (by decide)
  exact ⟨h1 (by decide), h2 (by decide), h3 (by decide), h4 (by decide),
    h5 (by decide), h6 (by decide), h7 (by decide), h8 (by decide),
    h9 (by decide), h10 (by decide), h11', h12', hbb (by decide),
    h13 (by decide), h14 (by decide)⟩

/-! ## C9 — Momentum and ROC agree -/

/-- **C9.**  For every candle sequence and every period `p ≥ 1`,
`calculateMomentum` and `calculateROC` agree: the same
`(close_now − close_{now−p}) / close_{now−p} × 100` formula with the same
insufficient-history default `0`; the two exports differ only in their
default period (10 vs 12). -/
theorem momentum_eq_roc (candles : List Candle) (period : ℕ)
    (_h : 1 ≤ period) :
    calculateMomentum candles period = calculateROC candles period ∧
      (candles.length < period + 1 → calculateMomentum candles period = 0) := by
  refine ⟨rfl, ?_⟩
  intro hlen
  unfold calculateMomentum
  rw [if_pos hlen]

/-- Witness for `momentum_eq_roc` at period 10 on a 12-candle input and at a
short input. -/
theorem momentum_eq_roc_witness :
    calculateMomentum (List.replicate 12 dummyCandle) 10 =
      calculateROC (List.replicate 12 dummyCandle) 10 ∧
    calculateMomentum (List.replicate 5 dummyCandle) 10 = 0 := by
  refine ⟨(momentum_eq_roc (List.replicate 12 dummyCandle) 10 (by decide)).1, ?_⟩
  exact (momentum_eq_roc (List.replicate 5 dummyCandle) 10 (by decide)).2
    (by decide)

/-! ## C10 — EMA degenerate short-input behavior -/

/-- **C10.**  On a non-empty price list shorter than `period`,
`calculateEMA` returns the most recent price unchanged. -/
theorem ema_short_returns_last (prices : List ℚ) (period : ℕ)
    (h1 : prices ≠ []) (h2 : prices.length < period) :
    calculateEMA prices period = some (prices.getLast h1) := by
  unfold calculateEMA emaCore
  rw [if_neg h1, if_pos h2, List.getLast?_eq_getLast _ h1, Option.getD_some]

/-- Witness for `ema_short_returns_last`: `[3, 7]` with period 5 yields the
last raw price 7, not a shorter-window EMA (which would be 17/3 with seed
3). -/
theorem ema_short_returns_last_witness :
    ([3, 7] : List ℚ) ≠ [] ∧ ([3, 7] : List ℚ).length < 5 ∧
      calculateEMA [3, 7] 5 = some 7 := by
  refine ⟨by decide, by decide, ?_⟩
  rw [ema_short_returns_last [3, 7] 5 (by decide) (by decide)]
  rfl

/-! ## C5 — ADX / DI bounds -/

/-- **C5, counterexample.**  The claim asserts `plusDI ∈ [0,100]` for
*every* input; on `exADX` (whose candles violate the data-model invariant
`close ≤ high`, which the engine never checks) every true range is 1 while
every `+DM` is 100, so `plusDI = 10000`. -/
theorem adx_plusdi_cex : 100 < (calculateADX exADX 14).plusDI := by
  have h : (calculateADX exADX 14).plusDI = 10000 := by
    norm_num [calculateADX, exADX, plusDILocal, atrLocal, avgPlusDMOf, trList,
      plusDMList, transitions, trueRange, plusDMOf, jsSliceNeg, max_def]
  rw [h]
  norm_num

/-- **C5, amended.**  For every input satisfying the data-model candle
invariant `low ≤ close ≤ high`: `ADX.value`, `plusDI`, `minusDI` all lie in
`[0, 100]`; both DI values are exactly 0 whenever the local ATR (the mean
true range over the trailing period window, i.e. `calculateATR`) is 0; and
fewer than `period + 1` candles give `{value: 0, plusDI: 0, minusDI: 0}`.
(`ADX.value ∈ [0,100]` in fact needs no invariant — see
`adx_value_bounds` — but the DI bounds do, per the counterexample.) -/
theorem adx_props (candles : List Candle)
    (hwf : ∀ c ∈ candles, c.low ≤ c.close ∧ c.close ≤ c.high) :
    (0 ≤ (calculateADX candles 14).value ∧
      (calculateADX candles 14).value ≤ 100) ∧
    (0 ≤ (calculateADX candles 14).plusDI ∧
      (calculateADX candles 14).plusDI ≤ 100) ∧
    (0 ≤ (calculateADX candles 14).minusDI ∧
      (calculateADX candles 14).minusDI ≤ 100) ∧
    (calculateATR candles 14 = 0 →
      (calculateADX candles 14).plusDI = 0 ∧
        (calculateADX candles 14).minusDI = 0) ∧
    (candles.length < 15 → calculateADX candles 14 = ⟨0, 0, 0⟩) := by
  refine ⟨adx_value_bounds candles 14, ?_, ?_, ?_, ?_⟩
  · unfold calculateADX
    split_ifs with h h2
    · exact ⟨le_refl 0, by norm_num⟩
    · exact ⟨plusDILocal_nonneg candles 14, plusDILocal_le_100 candles 14 hwf⟩
    · exact ⟨plusDILocal_nonneg candles 14, plusDILocal_le_100 candles 14 hwf⟩
  · unfold calculateADX
    split_ifs with h h2
    · exact ⟨le_refl 0, by norm_num⟩
    · exact ⟨minusDILocal_nonneg candles 14, minusDILocal_le_100 candles 14 hwf⟩
    · exact ⟨minusDILocal_nonneg candles 14, minusDILocal_le_100 candles 14 hwf⟩
  · intro hatr
    by_cases h : candles.length < 14 + 1
    · unfold calculateADX
      rw [if_pos h]
      exact ⟨rfl, rfl⟩
    · unfold calculateATR at hatr
      rw [if_neg h] at hatr
      unfold calculateADX
      rw [if_neg h]
      constructor
      · show plusDILocal candles 14 = 0
        unfold plusDILocal
        rw [if_neg (not_not_intro hatr)]
      · show minusDILocal candles 14 = 0
        unfold minusDILocal
        rw [if_neg (not_not_intro hatr)]
  · intro hl
    unfold calculateADX
    rw [if_pos hl]

/-- Witness for `adx_props`: 20 flat candles (well-formed, local ATR 0) and
a 5-candle short input. -/
theorem adx_props_witness :
    ((calculateADX (List.replicate 20 dummyCandle) 14).plusDI = 0 ∧
      (calculateADX (List.replicate 20 dummyCandle) 14).minusDI = 0) ∧
    (0 ≤ (calculateADX (List.replicate 20 dummyCandle) 14).value ∧
      (calculateADX (List.replicate 20 dummyCandle) 14).value ≤ 100) ∧
    calculateADX (List.replicate 5 dummyCandle) 14 = ⟨0, 0, 0⟩ := by
  obtain ⟨hv, _, _, hatr, _⟩ :=
    adx_props (List.replicate 20 dummyCandle) (by decide)
  obtain ⟨_, _, _, _, hg⟩ :=
    adx_props (List.replicate 5 dummyCandle) (by decide)
  refine ⟨hatr ?_, hv, hg (by decide)⟩
  norm_num [calculateATR, atrLocal, trList, transitions, trueRange,
    jsSliceNeg, List.replicate, dummyCandle, max_def]

/-! ## C7 — OBV monotonicity and mirror symmetry -/

/-- **C7, counterexample.**  The claim asserts every OBV volume increment is
non-negative (hence `OBV ≥ 0`) whenever the closes are non-decreasing; a
candle with negative volume on an up-move refutes it: `exOBV` has
non-decreasing closes yet `OBV = −5 < 0`. -/
theorem obv_negative_volume_cex :
    ((exOBV.map (·.close)).Chain' (· ≤ ·)) ∧ calculateOBV exOBV < 0 := by
  constructor
  · simp [exOBV, List.chain'_cons]
  · have h : calculateOBV exOBV = -5 := by
      simp [calculateOBV, transitions, obvIncrement, exOBV]
    rw [h]
    norm_num

/-- **C7, amended.**  For candles with non-decreasing closes *and
non-negative volumes* every OBV increment is non-negative, so `OBV ≥ 0` and
OBV does not decrease when a candle is appended that keeps the closes
non-decreasing and has non-negative volume; and, unconditionally, OBV of
the price-mirrored sequence (closes reflected about any constant `K`,
volumes unchanged) is the exact negative of OBV of the original. -/
theorem obv_laws (candles : List Candle) (c : Candle) (K : ℚ) :
    (((candles.map (·.close)).Chain' (· ≤ ·)) →
      (∀ x ∈ candles, 0 ≤ x.volume) →
      0 ≤ calculateOBV candles ∧
        (0 ≤ c.volume →
          (((candles ++ [c]).map (·.close)).Chain' (· ≤ ·)) →
          calculateOBV candles ≤ calculateOBV (candles ++ [c]))) ∧
    calculateOBV (candles.map (mirrorCandle K)) = -calculateOBV candles := by
  constructor
  · intro hchain hvol
    have hrel : ∀ t ∈ transitions candles, t.1.close ≤ t.2.close :=
      transitions_rel ((List.chain'_map (·.close)).mp hchain)
    constructor
    · rw [obv_eq_sum]
      refine List.sum_nonneg ?_
      intro x hx
      obtain ⟨t, ht, rfl⟩ := List.mem_map.mp hx
      exact obvIncrement_nonneg (hrel t ht)
        (hvol t.2 (transitions_mem ht).2)
    · intro hcv hchain'
      rcases eq_or_ne candles [] with rfl | hne
      · rw [show ([] : List Candle) ++ [c] = [c] from rfl]
        rw [obv_eq_sum, obv_eq_sum]
        rfl
      · rw [obv_eq_sum, obv_eq_sum, transitions_append_last candles hne c,
          List.map_append, List.sum_append]
        have hlast : (candles.getLast hne, c) ∈ transitions (candles ++ [c]) := by
          rw [transitions_append_last candles hne c]
          exact List.mem_append_right _ (List.mem_singleton.mpr rfl)
        have hle : (candles.getLast hne).close ≤ c.close :=
          transitions_rel ((List.chain'_map (·.close)).mp hchain')
            _ hlast
        have : (0 : ℚ) ≤
            ([( candles.getLast hne, c)].map
              (fun t => obvIncrement t.1 t.2)).sum := by
          simpa using obvIncrement_nonneg hle hcv
        linarith
  · rw [obv_eq_sum, obv_eq_sum, transitions_map (mirrorCandle K) candles,
      List.map_map]
    have : ((transitions candles).map
        ((fun t : Candle × Candle => obvIncrement t.1 t.2) ∘
          fun t : Candle × Candle => (mirrorCandle K t.1, mirrorCandle K t.2)))
        = (transitions candles).map
          (fun t => -obvIncrement t.1 t.2) := by
      refine List.map_congr_left ?_
      intro t _
      exact obvIncrement_mirror K t.1 t.2
    rw [this]
    exact sum_map_neg (transitions candles) (fun t => obvIncrement t.1 t.2)

/-- Witness for `obv_laws`: strictly rising closes with non-negative
volumes, one appended candle, mirror constant `K = 0`. -/
theorem obv_laws_witness :
    (0 ≤ calculateOBV exTrend ∧
      calculateOBV exTrend ≤ calculateOBV (exTrend ++ [⟨20, 0, 120, 120, 120, 5⟩])) ∧
    calculateOBV (exTrend.map (mirrorCandle 0)) = -calculateOBV exTrend := by
  obtain ⟨hmain, hmirror⟩ := obv_laws exTrend ⟨20, 0, 120, 120, 120, 5⟩ 0
  obtain ⟨h1, h2⟩ := hmain (by norm_num [exTrend, List.chain'_cons]) (by decide)
  exact ⟨⟨h1, h2 (by norm_num) (by norm_num [exTrend, List.chain'_cons])⟩,
    hmirror⟩

/-! ## C4 — Stochastic %D -/

/-- The `%K` of the full `kPeriod`-window ending at index `i`: `none` when
the window does not fit inside the sequence or when its high/low range is
zero. -/
def stochKAt (candles : List Candle) (kPeriod i : ℕ) : Option ℚ :=
  if kPeriod ≤ i + 1 ∧ i < candles.length then
    let w := (candles.drop (i + 1 - kPeriod)).take kPeriod
    let high := maxList (w.map (·.high))
    let low := minList (w.map (·.low))
    if high ≠ low then
      some (stochKRaw (candles.getD i dummyCandle).close low high)
    else none
  else none

/-- Formalisation of the claim's description of `%D`: the mean of the most
recent `dPeriod` `%K` values obtained by sliding the same `kPeriod` window
backward, with every zero-range window contributing `%K = 50`, falling back
to `%D = %K` when fewer than `dPeriod` full windows are available. -/
def claimedStochasticD (candles : List Candle) (kPeriod dPeriod : ℕ) : ℚ :=
  if candles.length < kPeriod then 50
  else if kPeriod + dPeriod ≤ candles.length + 1 then
    ((List.range' (candles.length - dPeriod) dPeriod).map
      (fun i => (stochKAt candles kPeriod i).getD 50)).sum / dPeriod
  else (calculateStochastic candles kPeriod dPeriod).k

/-- The pushed `%K` history, described declaratively: the full,
non-zero-range windows ending in the last `kPeriod + dPeriod` positions of
the sequence. -/
def stochKValuesSpec (candles : List Candle) (kPeriod dPeriod : ℕ) : List ℚ :=
  ((List.range candles.length).filter
    (fun i => candles.length ≤ i + (kPeriod + dPeriod))).filterMap
    (stochKAt candles kPeriod)

theorem filter_le_range (n s : ℕ) :
    (List.range n).filter (fun i => s ≤ i) = List.range' s (n - s) := by
  induction n with
  | zero => simp
  | succ n ih =>
    rw [List.range_succ, List.filter_append, ih]
    by_cases h : s ≤ n
    · have hfil : List.filter (fun i => decide (s ≤ i)) [n] = [n] := by
        simp [h]
      rw [hfil, show n + 1 - s = (n - s) + 1 from by omega,
        List.range'_concat, show s + 1 * (n - s) = n from by omega]
    · have hfil : List.filter (fun i => decide (s ≤ i)) [n] = [] := by
        simp [h]
      rw [hfil, List.append_nil, show n + 1 - s = n - s from by omega]

/-- Inside the sequence, one loop iteration of the `%K` history computes
exactly the declarative `stochKAt`: the `ℕ`-arithmetic slice
`slice(max(0, i − kPeriod + 1), i + 1)` holds `kPeriod` candles iff
`kPeriod ≤ i + 1`, and then equals the `kPeriod`-window ending at `i`. -/
theorem stochKSlot_eq_stochKAt (candles : List Candle) (kPeriod i : ℕ)
    (hi : i < candles.length) :
    stochKSlot candles kPeriod i = stochKAt candles kPeriod i := by
  have hlen : (jsSlice candles (i + 1 - kPeriod) (i + 1)).length
      = min (i + 1) kPeriod := by
    unfold jsSlice
    rw [List.length_drop, List.length_take]
    omega
  by_cases hk : kPeriod ≤ i + 1
  · have hslice : (candles.drop (i + 1 - kPeriod)).take kPeriod
        = jsSlice candles (i + 1 - kPeriod) (i + 1) := by
      unfold jsSlice
      rw [List.take_drop, show (i + 1 - kPeriod) + kPeriod = i + 1 from by
        omega]
    unfold stochKSlot stochKAt
    dsimp only
    rw [if_pos (show kPeriod ≤ i + 1 ∧ i < candles.length from ⟨hk, hi⟩)]
    rw [hlen, if_pos (show kPeriod ≤ min (i + 1) kPeriod from by omega)]
    rw [hslice]
  · unfold stochKSlot stochKAt
    dsimp only
    rw [if_neg (show ¬ (kPeriod ≤ i + 1 ∧ i < candles.length) from by omega)]
    rw [hlen, if_neg (show ¬ kPeriod ≤ min (i + 1) kPeriod from by omega)]

/-- The loop-built `%K` history equals its declarative description. -/
theorem stochKValues_eq_spec (candles : List Candle) (kPeriod dPeriod : ℕ) :
    stochKValues candles kPeriod dPeriod =
      stochKValuesSpec candles kPeriod dPeriod := by
  unfold stochKValues stochKValuesSpec
  have h1 : (List.range candles.length).filter
      (fun i => candles.length ≤ i + (kPeriod + dPeriod))
      = (List.range candles.length).filter
        (fun i => candles.length - (kPeriod + dPeriod) ≤ i) := by
    apply List.filter_congr
    intro i _
    apply decide_eq_decide.mpr
    omega
  rw [h1, filter_le_range,
    show candles.length - (candles.length - (kPeriod + dPeriod))
      = min candles.length (kPeriod + dPeriod) from by omega]
  apply List.filterMap_congr
  intro i hi
  obtain ⟨j, hj, rfl⟩ := List.mem_range'.mp hi
  exact stochKSlot_eq_stochKAt candles kPeriod _ (by omega)

set_option maxRecDepth 8000 in
/-- **C4, counterexample.**  The claim says every zero-range window
contributes `%K = 50` to the `%D` average; the code *skips* zero-range
windows instead.  On `exStoch` the last window is flat: the code averages
the three previous pushed values (`%D = 400/9 ≈ 44.4`), while the claimed
rule averages `{400/9, 400/9, 50}` (`1250/27 ≈ 46.3`). -/
theorem stochastic_d_cex :
    (calculateStochastic exStoch 14 3).d ≠ claimedStochasticD exStoch 14 3 := by
  have h1 : (calculateStochastic exStoch 14 3).d = 400 / 9 := by
    unfold calculateStochastic
    rw [if_neg (by decide)]
    dsimp only
    rw [show stochKValues exStoch 14 3 = [400 / 9, 400 / 9, 400 / 9] from by
      with_unfolding_all decide]
    norm_num [jsSliceNeg]
  have h2 : claimedStochasticD exStoch 14 3 = 1250 / 27 := by
    unfold claimedStochasticD
    rw [if_neg (by decide), if_pos (by decide)]
    rw [show (List.range' (exStoch.length - 3) 3).map
        (fun i => (stochKAt exStoch 14 i).getD 50)
        = [400 / 9, 400 / 9, 50] from by with_unfolding_all decide]
    norm_num
  rw [h1, h2]
  norm_num

/-- **C4, amended.**  `calculateStochastic(kPeriod, dPeriod)` returns
`{k: 50, d: 50}` below `kPeriod` candles; `%K` is 50 whenever the trailing
`kPeriod` range is zero; and `%D` is the mean of the most recent `dPeriod`
`%K` values among the *full, non-zero-range* windows ending in the last
`kPeriod + dPeriod` positions — zero-range windows are skipped, not counted
as 50 — falling back to `%D = %K` when fewer than `dPeriod` such values
exist. -/
theorem stochastic_spec (candles : List Candle) (kPeriod dPeriod : ℕ) :
    (candles.length < kPeriod →
      calculateStochastic candles kPeriod dPeriod = ⟨50, 50⟩) ∧
    (kPeriod ≤ candles.length →
      (maxList ((jsSliceNeg candles kPeriod).map (·.high)) =
          minList ((jsSliceNeg candles kPeriod).map (·.low)) →
        (calculateStochastic candles kPeriod dPeriod).k = 50) ∧
      (calculateStochastic candles kPeriod dPeriod).d =
        (if dPeriod ≤ (stochKValuesSpec candles kPeriod dPeriod).length then
          (jsSliceNeg (stochKValuesSpec candles kPeriod dPeriod) dPeriod).sum
            / dPeriod
        else (calculateStochastic candles kPeriod dPeriod).k)) := by
  constructor
  · intro h
    unfold calculateStochastic
    rw [if_pos h]
  · intro hlen
    have hng : ¬ candles.length < kPeriod := by omega
    constructor
    · intro heq
      unfold calculateStochastic
      rw [if_neg hng]
      dsimp only
      rw [if_neg (not_not_intro heq)]
    · unfold calculateStochastic
      rw [if_neg hng]
      dsimp only
      rw [stochKValues_eq_spec]

set_option maxRecDepth 8000 in
/-- Witness for `stochastic_spec`: the short default, the zero-range `%K`,
and the `%D` characterization evaluated on `exStoch` (`%D = 400/9`, the
mean of the three pushed values, the flat final window being skipped). -/
theorem stochastic_spec_witness :
    calculateStochastic (List.replicate 5 dummyCandle) 14 3 = ⟨50, 50⟩ ∧
    (calculateStochastic exStoch 14 3).k = 50 ∧
    (calculateStochastic exStoch 14 3).d = 400 / 9 := by
  obtain ⟨hshort, _⟩ := stochastic_spec (List.replicate 5 dummyCandle) 14 3
  obtain ⟨_, hmain⟩ := stochastic_spec exStoch 14 3
  obtain ⟨hk, hd⟩ := hmain (by decide)
  refine ⟨hshort (by decide), hk (by with_unfolding_all decide), ?_⟩
  rw [hd]
  rw [show stochKValuesSpec exStoch 14 3 = [400 / 9, 400 / 9, 400 / 9] from by
    with_unfolding_all decide]
  norm_num [jsSliceNeg]

/-! ## C3 — Bollinger band ordering and bandwidth sign -/

/-- **C3, counterexample.**  The claim quantifies over *every* candle
sequence: on the empty sequence the calculator throws (so there is no
ordered output at all), and on `exBB` (mean close −2) the caller-side
bandwidth is strictly negative. -/
theorem bollinger_bandwidth_cex :
    calculateBollingerBands ([] : List Candle) 20 = none ∧
      (calculateBollingerBands exBB 20).elim False
        (fun b => bollingerBandwidth b < 0) := by
  refine ⟨rfl, ?_⟩
  have h : calculateBollingerBands exBB 20 = some (bbCore exBB 20) := by
    unfold calculateBollingerBands
    rw [if_neg (by decide)]
  rw [h]
  show bollingerBandwidth (bbCore exBB 20) < 0
  have hsma : smaCore (exBB.map (·.close)) 20 = -2 := by
    norm_num [smaCore, exBB, jsSliceNeg]
  have hvar : bbVariance exBB 20 = 1 / 10 := by
    norm_num [bbVariance, exBB, jsSliceNeg, smaCore]
  have hs : (0 : ℝ) < Real.sqrt (((1 / 10 : ℚ) : ℚ) : ℝ) := by
    apply Real.sqrt_pos.mpr
    norm_num
  show ((bbCore exBB 20).upper - (bbCore exBB 20).lower)
      / (bbCore exBB 20).middle * 100 < 0
  unfold bbCore
  dsimp only
  rw [hsma, hvar]
  push_cast
  nlinarith [hs]

/-- **C3, amended.**  On every *non-empty* candle sequence (the empty one
throws) the bands are ordered `upper ≥ middle ≥ lower`; the caller-side
bandwidth `(upper − lower)/middle × 100` is non-negative whenever the
middle band is positive (with a negative mean close it is negative, per the
counterexample). -/
theorem bollinger_props (candles : List Candle) (period : ℕ)
    (h : candles ≠ []) :
    calculateBollingerBands candles period = some (bbCore candles period) ∧
    (bbCore candles period).lower ≤ (bbCore candles period).middle ∧
    (bbCore candles period).middle ≤ (bbCore candles period).upper ∧
    (0 < (bbCore candles period).middle →
      0 ≤ bollingerBandwidth (bbCore candles period)) := by
  have hs : 0 ≤ Real.sqrt ((bbVariance candles period : ℚ) : ℝ) :=
    Real.sqrt_nonneg _
  refine ⟨?_, ?_, ?_, ?_⟩
  · unfold calculateBollingerBands
    rw [if_neg h]
  · show (smaCore (candles.map (·.close)) period : ℝ)
        - Real.sqrt ((bbVariance candles period : ℚ) : ℝ) * 2
        ≤ (smaCore (candles.map (·.close)) period : ℝ)
    linarith
  · show (smaCore (candles.map (·.close)) period : ℝ)
        ≤ (smaCore (candles.map (·.close)) period : ℝ)
          + Real.sqrt ((bbVariance candles period : ℚ) : ℝ) * 2
    linarith
  · intro hm
    have hm' : (0 : ℝ) < (smaCore (candles.map (·.close)) period : ℝ) := hm
    show 0 ≤ ((bbCore candles period).upper - (bbCore candles period).lower)
        / (bbCore candles period).middle * 100
    unfold bbCore
    dsimp only
    have h4 : ((smaCore (candles.map (·.close)) period : ℝ)
          + Real.sqrt ((bbVariance candles period : ℚ) : ℝ) * 2)
        - ((smaCore (candles.map (·.close)) period : ℝ)
          - Real.sqrt ((bbVariance candles period : ℚ) : ℝ) * 2)
        = 4 * Real.sqrt ((bbVariance candles period : ℚ) : ℝ) := by ring
    rw [h4]
    positivity

/-- Witness for `bollinger_props`: one candle with close 4 gives
`middle = 4 > 0`, all bands 4 and bandwidth 0. -/
theorem bollinger_props_witness :
    calculateBollingerBands [(⟨0, 0, 4, 4, 4, 0⟩ : Candle)] 20 =
      some (bbCore [⟨0, 0, 4, 4, 4, 0⟩] 20) ∧
    (bbCore [(⟨0, 0, 4, 4, 4, 0⟩ : Candle)] 20).lower ≤
      (bbCore [⟨0, 0, 4, 4, 4, 0⟩] 20).middle ∧
    0 ≤ bollingerBandwidth (bbCore [(⟨0, 0, 4, 4, 4, 0⟩ : Candle)] 20) := by
  obtain ⟨h1, h2, _, h4⟩ :=
    bollinger_props [(⟨0, 0, 4, 4, 4, 0⟩ : Candle)] 20 (by decide)
  refine ⟨h1, h2, h4 ?_⟩
  show (0 : ℝ) <
    (smaCore ([(⟨0, 0, 4, 4, 4, 0⟩ : Candle)].map (·.close)) 20 : ℝ)
  have : smaCore ([(⟨0, 0, 4, 4, 4, 0⟩ : Candle)].map (·.close)) 20 = 4 := by
    norm_num [smaCore, jsSliceNeg]
  rw [this]
  norm_num

/-! ## C8 — support / resistance bracketing -/

/-- **C8.**  With at least 20 candles and pivots on both sides of
`currentPrice`, the reported levels bracket the price strictly:
`nearestSupport` is the *largest* pivot below and `nearestResistance` the
*smallest* pivot above. -/
theorem support_resistance_between (candles : List Candle) (p : ℚ)
    (h20 : 20 ≤ candles.length)
    (hs : ∃ q ∈ pivotPoints candles, q < p)
    (hr : ∃ q ∈ pivotPoints candles, p < q) :
    ((findSupportResistance candles p).nearestSupport < p ∧
      p < (findSupportResistance candles p).nearestResistance) ∧
    ((findSupportResistance candles p).nearestSupport ∈ pivotPoints candles ∧
      ∀ q ∈ pivotPoints candles, q < p →
        q ≤ (findSupportResistance candles p).nearestSupport) ∧
    ((findSupportResistance candles p).nearestResistance ∈ pivotPoints candles ∧
      ∀ q ∈ pivotPoints candles, p < q →
        (findSupportResistance candles p).nearestResistance ≤ q) := by
  obtain ⟨qs, hqs, hqs'⟩ := hs
  obtain ⟨qr, hqr, hqr'⟩ := hr
  have hne_s : (pivotPoints candles).filter (fun q => q < p) ≠ [] :=
    List.ne_nil_of_mem (List.mem_filter.mpr ⟨hqs, by simp [hqs']⟩)
  have hne_r : (pivotPoints candles).filter (fun q => p < q) ≠ [] :=
    List.ne_nil_of_mem (List.mem_filter.mpr ⟨hqr, by simp [hqr']⟩)
  have heq : findSupportResistance candles p =
      ⟨maxList ((pivotPoints candles).filter (fun q => q < p)),
        minList ((pivotPoints candles).filter (fun q => p < q)),
        (p - maxList ((pivotPoints candles).filter (fun q => q < p))) / p * 100,
        (minList ((pivotPoints candles).filter (fun q => p < q)) - p) / p * 100⟩ := by
    unfold findSupportResistance
    rw [if_neg (by omega)]
    dsimp only
    rw [if_pos hne_s, if_pos hne_r]
  rw [heq]
  dsimp only
  have hmax_mem := maxList_mem hne_s
  have hmin_mem := minList_mem hne_r
  refine ⟨⟨?_, ?_⟩, ⟨List.mem_of_mem_filter hmax_mem, ?_⟩,
    ⟨List.mem_of_mem_filter hmin_mem, ?_⟩⟩
  · have := (List.mem_filter.mp hmax_mem).2
    exact of_decide_eq_true this
  · have := (List.mem_filter.mp hmin_mem).2
    exact of_decide_eq_true this
  · intro q hq hql
    exact le_maxList (List.mem_filter.mpr ⟨hq, by simp [hql]⟩)
  · intro q hq hql
    exact minList_le (List.mem_filter.mpr ⟨hq, by simp [hql]⟩)

/-- Witness for `support_resistance_between`: on `exSR` the pivot scan
yields `[5, 5, 20, 1, 10, 10]`, so at price 7 the nearest support is 5 and
the nearest resistance 10. -/
theorem support_resistance_between_witness :
    (findSupportResistance exSR 7).nearestSupport < 7 ∧
      7 < (findSupportResistance exSR 7).nearestResistance := by
  have hpts : pivotPoints exSR = [5, 5, 20, 1, 10, 10] := by
    norm_num [pivotPoints, exSR, jsSlice, List.range', dummyCandle]
  exact (support_resistance_between exSR 7 (by decide)
    ⟨5, by rw [hpts]; norm_num, by norm_num⟩
    ⟨20, by rw [hpts]; norm_num, by norm_num⟩).1

/-! ## C6 — trend strength formula -/

/-- Formalisation of the claim's description of the trend-strength score:
fewer than 20 candles give 0; otherwise the average of the raw ADX value,
`|percentage deviation of current price from SMA20| × 10` and
`10 × (consecutive same-direction close count, looking back up to 10 steps,
breaking at the first reversal)`, clamped to `[0, 100]`. -/
def trendStrengthSpec (candles : List Candle) (adxValue : ℚ) : ℚ :=
  if candles.length < 20 then 0
  else
    let closes := candles.map (·.close)
    let price := (closes.getLast?).getD 0
    let sma20 := (jsSliceNeg closes 20).sum / 20
    let deviationPct := (price - sma20) / sma20 * 100
    let momentumRun : ℚ := 10 * (runCount (runDirections candles) : ℚ)
    max 0 (min 100 ((adxValue + |deviationPct| * 10 + momentumRun) / 3))

/-- Clamping from above only (`Math.min(100, ·)`) agrees with clamping to
`[0, 100]` when all three components are non-negative. -/
theorem clamp_eq {a d r : ℚ} (ha : 0 ≤ a) (hd : 0 ≤ d) (hr : 0 ≤ r) :
    min 100 ((a + d + r) / 3) = max 0 (min 100 ((a + d + r) / 3)) := by
  rw [max_eq_right]
  exact le_min (by norm_num) (by positivity)

/-- **C6.**  `calculateTrendStrength` returns 0 below 20 candles and
otherwise — fed, as the engine does, the raw ADX value of the same candles,
which is always non-negative — computes exactly the claim's clamped
three-component average (`Math.min(100, ·)` suffices because the average is
never negative). -/
theorem trend_strength_matches_spec (candles : List Candle) (a : ℚ) :
    (candles.length < 20 → calculateTrendStrength candles a = 0) ∧
    calculateTrendStrength candles (calculateADX candles 14).value =
      trendStrengthSpec candles (calculateADX candles 14).value := by
  constructor
  · intro h
    unfold calculateTrendStrength
    rw [if_pos h]
  · unfold calculateTrendStrength trendStrengthSpec
    split_ifs with h
    · rfl
    · dsimp only
      have hsma : smaCore (candles.map (·.close)) 20
          = (jsSliceNeg (candles.map (·.close)) 20).sum / 20 := by
        unfold smaCore
        rw [if_neg (by rw [List.length_map]; omega)]
        norm_num
      rw [hsma, mul_comm (10 : ℚ) ((runCount (runDirections candles) : ℚ))]
      apply clamp_eq
      · exact (adx_value_bounds candles 14).1
      · positivity
      · positivity

/-- Witness for `trend_strength_matches_spec`: the short-input default at 5
candles and the formula agreement on 20 rising candles. -/
theorem trend_strength_matches_spec_witness :
    calculateTrendStrength (List.replicate 5 dummyCandle) 7 = 0 ∧
    calculateTrendStrength exTrend (calculateADX exTrend 14).value =
      trendStrengthSpec exTrend (calculateADX exTrend 14).value := by
  exact ⟨(trend_strength_matches_spec (List.replicate 5 dummyCandle) 7).1
    (by decide), (trend_strength_matches_spec exTrend 0).2⟩

/-! ## C2 — RSI bounds and special values -/

/-- **C2.**  With period 14: RSI is always in `[0, 100]`; with fewer than
15 candles it is exactly 50; with at least 15 candles and non-decreasing
closes the average loss is zero and RSI is exactly 100. -/
theorem rsi_bounds (candles : List Candle) :
    (0 ≤ calculateRSI candles 14 ∧ calculateRSI candles 14 ≤ 100) ∧
    (candles.length < 15 → calculateRSI candles 14 = 50) ∧
    (15 ≤ candles.length → ((candles.map (·.close)).Chain' (· ≤ ·)) →
      calculateRSI candles 14 = 100) := by
  refine ⟨?_, fun h => by unfold calculateRSI; rw [if_pos h], ?_⟩
  · unfold calculateRSI
    split
    · norm_num
    · dsimp only
      set changes := adjDiffs (((candles.map (·.close))).drop
        ((candles.map (·.close)).length - (14 + 1))) with hch
      have hg : 0 ≤ (changes.map (fun c => if 0 < c then c else 0)).sum := by
        refine List.sum_nonneg ?_
        intro x hx
        obtain ⟨c, _, rfl⟩ := List.mem_map.mp hx
        split <;> linarith
      have hl : 0 ≤ (changes.map (fun c => if 0 < c then 0 else -c)).sum := by
        refine List.sum_nonneg ?_
        intro x hx
        obtain ⟨c, _, rfl⟩ := List.mem_map.mp hx
        split <;> linarith
      split
      · norm_num
      · rename_i hne
        set G := (changes.map (fun c => if 0 < c then c else 0)).sum
        set L := (changes.map (fun c => if 0 < c then 0 else -c)).sum
        have hLpos : 0 < L / 14 :=
          lt_of_le_of_ne (by positivity) (Ne.symm hne)
        have hrs : 0 ≤ G / 14 / (L / 14) := by positivity
        have hfrac : 100 / (1 + G / 14 / (L / 14)) ≤ 100 :=
          div_le_self (by norm_num) (by linarith)
        have hfracpos : 0 < 100 / (1 + G / 14 / (L / 14)) := by positivity
        constructor <;> linarith
  · intro hlen hchain
    unfold calculateRSI
    rw [if_neg (by omega)]
    dsimp only
    have hdrop : ((candles.map (·.close)).drop
        ((candles.map (·.close)).length - (14 + 1))).Chain' (· ≤ ·) :=
      chain'_drop hchain _
    have hzero : ((adjDiffs ((candles.map (·.close)).drop
        ((candles.map (·.close)).length - (14 + 1)))).map
          (fun c => if 0 < c then 0 else -c)).sum = 0 := by
      refine List.sum_eq_zero ?_
      intro x hx
      obtain ⟨c, hc, rfl⟩ := List.mem_map.mp hx
      have := adjDiffs_nonneg hdrop c hc
      split
      · rfl
      · linarith
    rw [hzero]
    norm_num

/-- Witness for `rsi_bounds`: the short default at 5 flat candles and the
saturated value at 15 strictly increasing closes (spec scenarios A/B). -/
theorem rsi_bounds_witness :
    calculateRSI (List.replicate 5 dummyCandle) 14 = 50 ∧
      calculateRSI exRSIUp 14 = 100 := by
  refine ⟨(rsi_bounds (List.replicate 5 dummyCandle)).2.1 (by decide), ?_⟩
  exact (rsi_bounds exRSIUp).2.2 (by decide)
    (by norm_num [exRSIUp, List.chain'_cons])

end Signalix
